import Mathlib

/-!
# Verification of the `pyglob` wildcard matcher

This file is a shallow embedding of `src/lib.rs` of the `pyglob` crate:
a wildcard pattern matcher (`*` matches zero or more graphemes, `?` matches
exactly one) that operates on grapheme-cluster sequences and decides a match
by memoized dynamic programming over (pattern position, text position) pairs.

The grapheme segmentation itself is performed by the external
`unicode_segmentation` crate and is therefore modelled as an abstract
parameter (a function `String → List String`); everything the repository
itself implements — the memoized matcher `set_cache` / `match_with_cache`
and the (dead-code) preprocessing pass — is embedded faithfully below.

The memo table (`HashMap<(usize, usize), bool>` in the source) is modelled
as an association list with most-recent-insert-wins lookup, which is
observationally the behaviour of `HashMap::insert` / `get` / `contains_key`.
-/

/-- The memo table of the matcher: Rust `HashMap<(usize, usize), bool>`,
modelled as an association list where the most recent insert shadows. -/
abbrev Cache := List ((Nat × Nat) × Bool)

/-- Rust `cache.get(&key)` (most recently inserted binding wins). -/
def lookupC : Cache → (Nat × Nat) → Option Bool
  | [], _ => none
  | (k, v) :: rest, key => if k = key then some v else lookupC rest key

/-- Rust `cache.insert(key, value)`. -/
def insertC (cache : Cache) (key : Nat × Nat) (value : Bool) : Cache :=
  (key, value) :: cache

/-- The keys currently present in the cache. -/
def keysC (cache : Cache) : List (Nat × Nat) :=
  cache.map Prod.fst

theorem lookupC_nil (key : Nat × Nat) : lookupC [] key = none := rfl

theorem lookupC_insert_self (cache : Cache) (key : Nat × Nat) (value : Bool) :
    lookupC (insertC cache key value) key = some value := by
  simp [insertC, lookupC]

theorem lookupC_insert_ne (cache : Cache) (key key' : Nat × Nat) (value : Bool)
    (h : key ≠ key') : lookupC (insertC cache key value) key' = lookupC cache key' := by
  simp [insertC, lookupC, h]

theorem lookupC_eq_none_iff (cache : Cache) (key : Nat × Nat) :
    lookupC cache key = none ↔ key ∉ keysC cache := by
  induction cache with
  | nil => simp [lookupC, keysC]
  | cons kv rest ih =>
    obtain ⟨k, v⟩ := kv
    by_cases hk : k = key
    · subst hk
      simp [lookupC, keysC]
    · have hk' : ¬key = k := fun h => hk h.symm
      simp [lookupC, keysC, hk, hk', ih]

theorem lookupC_isSome_iff (cache : Cache) (key : Nat × Nat) :
    (lookupC cache key).isSome ↔ key ∈ keysC cache := by
  rw [Option.isSome_iff_ne_none, ne_eq, lookupC_eq_none_iff, not_not]

theorem lookupC_append_none (c1 c2 : Cache) (key : Nat × Nat) :
    lookupC (c1 ++ c2) key = none ↔ lookupC c1 key = none ∧ lookupC c2 key = none := by
  induction c1 with
  | nil => simp [lookupC]
  | cons kv rest ih =>
    obtain ⟨k, v⟩ := kv
    by_cases hk : k = key
    · subst hk
      simp [lookupC, List.cons_append]
    · simp [lookupC, List.cons_append, hk, ih]

theorem lookupC_append_left (c1 c2 : Cache) (key : Nat × Nat) (b : Bool)
    (h : lookupC c1 key = some b) : lookupC (c1 ++ c2) key = some b := by
  induction c1 with
  | nil => simp [lookupC] at h
  | cons kv rest ih =>
    obtain ⟨k, v⟩ := kv
    by_cases hk : k = key
    · subst hk
      simp [lookupC] at h
      simp [lookupC, List.cons_append, h]
    · simp [lookupC, hk] at h
      simp [lookupC, List.cons_append, hk]
      exact ih h

theorem lookupC_append_right (c1 c2 : Cache) (key : Nat × Nat)
    (h : lookupC c1 key = none) : lookupC (c1 ++ c2) key = lookupC c2 key := by
  induction c1 with
  | nil => simp [lookupC]
  | cons kv rest ih =>
    obtain ⟨k, v⟩ := kv
    by_cases hk : k = key
    · subst hk
      simp [lookupC] at h
    · simp [lookupC, hk] at h
      simp [lookupC, List.cons_append, hk]
      exact ih h

theorem keysC_append (c1 c2 : Cache) : keysC (c1 ++ c2) = keysC c1 ++ keysC c2 := by
  simp [keysC]

/-!
## The specification side

`Matches pattern text` is the wildcard-matching relation exactly as the
specification states it, on grapheme sequences: a literal pattern grapheme
matches only the identical text grapheme, `?` matches exactly one arbitrary
grapheme, `*` matches zero or more arbitrary graphemes, and both the pattern
and the text must be consumed entirely.

`specMatch` is an executable (structurally recursive) rendering of the same
semantics: `*` skips some number `k` of text graphemes and the rest of the
pattern must match the rest of the text.  Both are specification-side
definitions, written from the spec's words, to be compared with the
implementation `match_with_cache` below.
-/

/-- The wildcard matching relation of the specification (§4.2):
literal graphemes match only themselves, `?` consumes exactly one arbitrary
grapheme, `*` consumes zero (`starSkip`) or more (`starEat`) graphemes, and
a match consumes the whole pattern and the whole text. -/
inductive Matches : List String → List String → Prop where
  | nil : Matches [] []
  | lit {p : String} {ps ts : List String} :
      p ≠ "*" → p ≠ "?" → Matches ps ts → Matches (p :: ps) (p :: ts)
  | qmark {t : String} {ps ts : List String} :
      Matches ps ts → Matches ("?" :: ps) (t :: ts)
  | starSkip {ps ts : List String} :
      Matches ps ts → Matches ("*" :: ps) ts
  | starEat {t : String} {ps ts : List String} :
      Matches ("*" :: ps) ts → Matches ("*" :: ps) (t :: ts)

/-- Executable form of the specification semantics: a `*` at the head of the
pattern skips `k` text graphemes for some `0 ≤ k ≤ |text|`; a `?` or an equal
literal consumes exactly one text grapheme; the empty pattern matches only
the empty text. -/
def specMatch : List String → List String → Bool
  | [], text => text.isEmpty
  | p :: ps, text =>
    if p = "*" then
      (List.range (text.length + 1)).any fun k => specMatch ps (text.drop k)
    else
      match text with
      | [] => false
      | t :: ts => (p = "?" || p = t) && specMatch ps ts

theorem specMatch_nil_left (text : List String) :
    specMatch [] text = text.isEmpty := rfl

theorem specMatch_star_head (ps text : List String) :
    specMatch ("*" :: ps) text =
      (List.range (text.length + 1)).any fun k => specMatch ps (text.drop k) := by
  simp [specMatch]

theorem specMatch_cons_nil (p : String) (ps : List String) (hp : p ≠ "*") :
    specMatch (p :: ps) [] = false := by
  simp [specMatch, hp]

theorem specMatch_cons_cons (p t : String) (ps ts : List String) (hp : p ≠ "*") :
    specMatch (p :: ps) (t :: ts) = ((p = "?" || p = t) && specMatch ps ts) := by
  simp [specMatch, hp]

theorem specMatch_star_nil (ps : List String) :
    specMatch ("*" :: ps) [] = specMatch ps [] := by
  rw [specMatch_star_head]
  simp [List.range_succ]

theorem specMatch_star_cons (ps : List String) (t : String) (ts : List String) :
    specMatch ("*" :: ps) (t :: ts) =
      (specMatch ps (t :: ts) || specMatch ("*" :: ps) ts) := by
  rw [specMatch_star_head, specMatch_star_head]
  rw [show (t :: ts).length + 1 = ts.length + 1 + 1 from by simp]
  rw [List.range_succ_eq_map]
  simp only [List.any_cons, List.any_map, Function.comp_def, Nat.succ_eq_add_one,
    List.drop_succ_cons, List.drop_zero]

theorem specMatch_star_exists (ps text : List String) :
    specMatch ("*" :: ps) text = true ↔
      ∃ k, k ≤ text.length ∧ specMatch ps (text.drop k) = true := by
  rw [specMatch_star_head]
  rw [List.any_eq_true]
  constructor
  · rintro ⟨k, hk, hspec⟩
    rw [List.mem_range] at hk
    exact ⟨k, by omega, hspec⟩
  · rintro ⟨k, hk, hspec⟩
    exact ⟨k, List.mem_range.2 (by omega), hspec⟩

theorem specMatch_star_all (text : List String) :
    specMatch ["*"] text = true := by
  rw [specMatch_star_exists]
  exact ⟨text.length, le_refl _, by simp [specMatch]⟩

/-- Matching is compositional: independently matching halves concatenate. -/
theorem specMatch_append (A : List String) :
    ∀ T B U : List String, specMatch A T = true → specMatch B U = true →
      specMatch (A ++ B) (T ++ U) = true := by
  induction A with
  | nil =>
    intro T B U hAT hBU
    rw [specMatch_nil_left] at hAT
    have : T = [] := by
      cases T with
      | nil => rfl
      | cons x xs => simp at hAT
    subst this
    simpa using hBU
  | cons a as ih =>
    intro T B U hAT hBU
    by_cases ha : a = "*"
    · subst ha
      rw [specMatch_star_exists] at hAT
      obtain ⟨k, hk, hspec⟩ := hAT
      rw [List.cons_append, specMatch_star_exists]
      refine ⟨k, by simp; omega, ?_⟩
      rw [List.drop_append_of_le_length hk]
      exact ih _ _ _ hspec hBU
    · cases T with
      | nil => rw [specMatch_cons_nil a as ha] at hAT; exact absurd hAT (by simp)
      | cons t ts =>
        rw [specMatch_cons_cons a t as ts ha] at hAT
        rw [Bool.and_eq_true] at hAT
        rw [List.cons_append, List.cons_append, specMatch_cons_cons _ _ _ _ ha]
        rw [Bool.and_eq_true]
        exact ⟨hAT.1, ih _ _ _ hAT.2 hBU⟩

/-- Wildcard matching is stable under reversing both sequences. -/
theorem specMatch_reverse_of (A : List String) :
    ∀ T : List String, specMatch A T = true →
      specMatch A.reverse T.reverse = true := by
  induction A with
  | nil =>
    intro T h
    rw [specMatch_nil_left] at h
    have : T = [] := by
      cases T with
      | nil => rfl
      | cons x xs => simp at h
    subst this
    simp [specMatch]
  | cons a as ih =>
    intro T h
    by_cases ha : a = "*"
    · subst ha
      rw [specMatch_star_exists] at h
      obtain ⟨k, hk, hspec⟩ := h
      have hrev : T.reverse = (T.drop k).reverse ++ (T.take k).reverse := by
        rw [← List.reverse_append, List.take_append_drop]
      rw [List.reverse_cons, hrev]
      exact specMatch_append _ _ _ _ (ih _ hspec) (specMatch_star_all _)
    · cases T with
      | nil => rw [specMatch_cons_nil a as ha] at h; exact absurd h (by simp)
      | cons t ts =>
        rw [specMatch_cons_cons a t as ts ha] at h
        rw [Bool.and_eq_true] at h
        have h1 : a = "?" ∨ a = t := by simpa using h.1
        rw [List.reverse_cons, List.reverse_cons]
        refine specMatch_append _ _ _ _ (ih _ h.2) ?_
        rw [specMatch_cons_cons a t [] [] ha]
        rcases h1 with h1 | h1 <;> simp [h1, specMatch]

theorem specMatch_reverse (A T : List String) :
    specMatch A.reverse T.reverse = specMatch A T := by
  cases h : specMatch A T with
  | true => exact specMatch_reverse_of A T h
  | false =>
    by_contra hne
    have h2 : specMatch A.reverse T.reverse = true := by
      cases h3 : specMatch A.reverse T.reverse with
      | true => rfl
      | false => rw [h3] at hne; exact absurd rfl hne
    have := specMatch_reverse_of A.reverse T.reverse h2
    rw [List.reverse_reverse, List.reverse_reverse] at this
    rw [h] at this
    exact absurd this (by simp)

/-- `*` at the head of the pattern absorbs any text prepended to a match. -/
theorem Matches_star_prepend (us : List String) :
    ∀ ps ts : List String, Matches ("*" :: ps) ts → Matches ("*" :: ps) (us ++ ts) := by
  induction us with
  | nil => intro ps ts h; simpa using h
  | cons u us ih =>
    intro ps ts h
    exact Matches.starEat (ih ps ts h)

/-- Soundness of the relational spec for the executable spec. -/
theorem specMatch_of_Matches {A T : List String} (h : Matches A T) :
    specMatch A T = true := by
  induction h with
  | nil => rfl
  | lit hp _ _ ih =>
    rw [specMatch_cons_cons _ _ _ _ hp, Bool.and_eq_true]
    exact ⟨by simp, ih⟩
  | qmark _ ih =>
    rw [specMatch_cons_cons _ _ _ _ (by decide), Bool.and_eq_true]
    exact ⟨by simp, ih⟩
  | starSkip _ ih =>
    rw [specMatch_star_exists]
    exact ⟨0, by omega, by simpa using ih⟩
  | starEat _ ih =>
    rw [specMatch_star_exists] at ih ⊢
    obtain ⟨k, hk, hspec⟩ := ih
    exact ⟨k + 1, by simp; omega, by simpa using hspec⟩

/-- The executable spec and the relational spec agree. -/
theorem specMatch_iff_Matches (A : List String) :
    ∀ T : List String, specMatch A T = true ↔ Matches A T := by
  induction A with
  | nil =>
    intro T
    rw [specMatch_nil_left]
    constructor
    · intro h
      cases T with
      | nil => exact Matches.nil
      | cons x xs => simp at h
    · intro h
      exact specMatch_of_Matches h
  | cons a as ih =>
    intro T
    constructor
    · intro h
      by_cases ha : a = "*"
      · subst ha
        rw [specMatch_star_exists] at h
        obtain ⟨k, hk, hspec⟩ := h
        have hm : Matches as (T.drop k) := (ih _).1 hspec
        have h2 : Matches ("*" :: as) (T.drop k) := Matches.starSkip hm
        have h3 := Matches_star_prepend (T.take k) as (T.drop k) h2
        rwa [List.take_append_drop] at h3
      · cases T with
        | nil => rw [specMatch_cons_nil a as ha] at h; exact absurd h (by simp)
        | cons t ts =>
          rw [specMatch_cons_cons a t as ts ha, Bool.and_eq_true] at h
          have hm : Matches as ts := (ih _).1 h.2
          have h1 : a = "?" ∨ a = t := by simpa using h.1
          rcases h1 with h1 | h1
          · subst h1
            exact Matches.qmark hm
          · subst h1
            by_cases hq : a = "?"
            · subst hq
              exact Matches.qmark hm
            · exact Matches.lit ha hq hm
    · intro h
      exact specMatch_of_Matches h

/-- Every grapheme sequence matches itself literally. -/
theorem Matches_self (s : List String) : Matches s s := by
  induction s with
  | nil => exact Matches.nil
  | cons a as ih =>
    by_cases ha : a = "*"
    · subst ha
      exact Matches.starEat (Matches.starSkip ih)
    · by_cases hq : a = "?"
      · subst hq
        exact Matches.qmark ih
      · exact Matches.lit ha hq ih

/-!
## The implementation side

`set_cache`, `match_with_cache` and `is_wildcard_match` embed the functions
of the same names from `src/lib.rs`.  `row`/`column` are 1-indexed so that
`0` serves as a border; `row = 1` / `column = 1` mean the pattern / text is
fully consumed, and for `row > 1` / `column > 1` the current graphemes are
`pattern[row - 2]` / `text[column - 2]`.  The Rust vector indexings
`pattern[row - 2]` and `text[column - 2]` are rendered with `List.getD`
(with `""` as default, the value the code uses for the border); the
panic-modelling variant `set_cacheP` below returns `none` where the Rust
code would panic.
-/

/-- The Rust `let pattern_char = if row == 1 { "" } else { pattern[row - 2] }`
(the total rendering; `set_cacheP` below models the possible panic). -/
def patternCharOf (pattern : List String) (row : Nat) : String :=
  if row = 1 then "" else pattern.getD (row - 2) ""

/-- The Rust `let text_char = if column == 1 { "" } else { text[column - 2] }`. -/
def textCharOf (text : List String) (column : Nat) : String :=
  if column = 1 then "" else text.getD (column - 2) ""

/-- Rust `set_cache`: fills the memo entry for `(row, column)` (and those of
all sub-states it visits), by the recurrence: on a literal match or `?`,
copy the value from `(row - 1, column - 1)`; on `*`, take the value from
`(row - 1, column)` or, failing that, from `(row, column - 1)`; otherwise
store `false`.  Returns the updated cache (the Rust function mutates it). -/
def set_cache (pattern text : List String) (cache : Cache) (row column : Nat) : Cache :=
  if (lookupC cache (row, column)).isSome then cache
  else if _h0 : row = 0 then insertC cache (row, column) false
  else if _h1 : column = 0 then insertC cache (row, column) false
  else if (patternCharOf pattern row = textCharOf text column ∧ textCharOf text column ≠ "*")
      ∨ patternCharOf pattern row = "?" then
    let cache1 := set_cache pattern text cache (row - 1) (column - 1)
    insertC cache1 (row, column) ((lookupC cache1 (row - 1, column - 1)).getD false)
  else if patternCharOf pattern row = "*" then
    let cache1 := set_cache pattern text cache (row - 1) column
    if (lookupC cache1 (row - 1, column)).getD false then
      insertC cache1 (row, column) true
    else
      let cache2 := set_cache pattern text cache1 row (column - 1)
      if (lookupC cache2 (row, column - 1)).getD false then
        insertC cache2 (row, column) true
      else
        insertC cache2 (row, column) false
  else
    insertC cache (row, column) false
termination_by row + column
decreasing_by
  · omega
  · omega
  · omega

/-- Rust `match_with_cache`: seed the cache with `(1, 1) ↦ true`, run
`set_cache` from the goal state `(P + 1, T + 1)`, and read off that entry
(the Rust code uses `.unwrap()`; the lookup is total here and proved to
succeed in `set_cache_keyHit` below). -/
def match_with_cache (pattern text : List String) : Bool :=
  let cache := insertC [] (1, 1) true
  let cache1 := set_cache pattern text cache (pattern.length + 1) (text.length + 1)
  (lookupC cache1 (pattern.length + 1, text.length + 1)).getD false

/-- Rust `is_wildcard_match`: segment both strings into grapheme clusters
and run the matcher.  The segmentation is performed by the external
`unicode_segmentation` crate (`.graphemes(true)`), modelled here as the
abstract parameter `segment`. -/
def is_wildcard_match (segment : String → List String) (text pattern : String) : Bool :=
  match_with_cache (segment pattern) (segment text)

/-- The value the memo entry at `(row, column)` must hold: `false` on the
border, and otherwise whether the first `row - 1` pattern graphemes match
the first `column - 1` text graphemes (stated via `specMatch` on the
reversed prefixes, because the recurrence consumes from the right end). -/
def target (pattern text : List String) (row column : Nat) : Bool :=
  if row = 0 ∨ column = 0 then false
  else specMatch ((pattern.take (row - 1)).reverse) ((text.take (column - 1)).reverse)

/-- A cache is good when it holds the seed entry `(1, 1) ↦ true` and every
entry holds the value of `target` at its coordinate. -/
def GoodCache (pattern text : List String) (cache : Cache) : Prop :=
  lookupC cache (1, 1) = some true ∧
    ∀ r c b, lookupC cache (r, c) = some b → b = target pattern text r c

theorem target_zero_left (pattern text : List String) (c : Nat) :
    target pattern text 0 c = false := by
  simp [target]

theorem target_zero_right (pattern text : List String) (r : Nat) :
    target pattern text r 0 = false := by
  simp [target]

theorem target_one_one (pattern text : List String) :
    target pattern text 1 1 = true := by
  simp [target, specMatch]

theorem take_reverse_cons (l : List String) (k : Nat) (h : k < l.length) :
    (l.take (k + 1)).reverse = l.getD k "" :: (l.take k).reverse := by
  rw [List.take_succ, List.getElem?_eq_getElem h]
  simp [List.getD_eq_getElem l "" h]
  rw [List.take_succ, List.getElem?_eq_getElem h]
  simp

theorem target_eq_spec (pattern text : List String) (row column : Nat)
    (h0 : row ≠ 0) (h1 : column ≠ 0) :
    target pattern text row column =
      specMatch ((pattern.take (row - 1)).reverse) ((text.take (column - 1)).reverse) := by
  unfold target
  rw [if_neg (by omega)]

theorem patternCharOf_of_ge (pattern : List String) (row : Nat) (h : 2 ≤ row) :
    patternCharOf pattern row = pattern.getD (row - 2) "" := by
  rw [patternCharOf, if_neg (by omega)]

theorem textCharOf_of_ge (text : List String) (column : Nat) (h : 2 ≤ column) :
    textCharOf text column = text.getD (column - 2) "" := by
  rw [textCharOf, if_neg (by omega)]

theorem take_reverse_at (l : List String) (i : Nat) (h2 : 2 ≤ i) (hle : i ≤ l.length + 1) :
    (l.take (i - 1)).reverse = l.getD (i - 2) "" :: (l.take (i - 2)).reverse := by
  have hidx : i - 2 < l.length := by omega
  have := take_reverse_cons l (i - 2) hidx
  rw [show i - 1 = i - 2 + 1 from by omega]
  exact this

/-- The `target` value at a state whose pattern prefix is empty but whose
text prefix is not. -/
theorem target_row_one (pattern text : List String) (column : Nat)
    (h2 : 2 ≤ column) (hcol : column ≤ text.length + 1) :
    target pattern text 1 column = false := by
  rw [target_eq_spec pattern text 1 column (by omega) (by omega)]
  have htlen : (text.take (column - 1)).length = column - 1 := by
    rw [List.length_take]
    omega
  cases hX : (text.take (column - 1)).reverse with
  | nil =>
    have := congrArg List.length hX
    simp [htlen] at this
    omega
  | cons a as => simp [specMatch_nil_left]

/-- Step equation for `target`: the diagonal (literal match or `?`) case. -/
theorem target_eq_diag (pattern text : List String) (row column : Nat)
    (hrow : row ≤ pattern.length + 1) (hcol : column ≤ text.length + 1)
    (h0 : row ≠ 0) (h1 : column ≠ 0) (hne : ¬(row = 1 ∧ column = 1))
    (hbr : (patternCharOf pattern row = textCharOf text column ∧ textCharOf text column ≠ "*")
      ∨ patternCharOf pattern row = "?") :
    target pattern text row column = target pattern text (row - 1) (column - 1) := by
  rcases Nat.lt_or_ge row 2 with hr | hr
  · have hrow1 : row = 1 := by omega
    subst hrow1
    rcases Nat.lt_or_ge column 2 with hc | hc
    · exact absurd ⟨rfl, by omega⟩ hne
    · rw [target_row_one pattern text column hc hcol]
      rw [show (1 : Nat) - 1 = 0 from rfl, target_zero_left]
  · rcases Nat.lt_or_ge column 2 with hc | hc
    · have hcol1 : column = 1 := by omega
      subst hcol1
      have htc : textCharOf text 1 = "" := by simp [textCharOf]
      rw [htc] at hbr
      have hpc2 : patternCharOf pattern row = pattern.getD (row - 2) "" :=
        patternCharOf_of_ge pattern row hr
      have hP := take_reverse_at pattern row hr hrow
      rw [show (1 : Nat) - 1 = 0 from rfl, target_zero_right]
      rw [target_eq_spec pattern text row 1 (by omega) (by omega)]
      rw [show (1 : Nat) - 1 = 0 from rfl]
      rw [show text.take 0 = [] from rfl, List.reverse_nil, hP]
      apply specMatch_cons_nil
      rw [← hpc2]
      rcases hbr with ⟨heq, _⟩ | hq
      · rw [heq]; decide
      · rw [hq]; decide
    · have hpc2 : patternCharOf pattern row = pattern.getD (row - 2) "" :=
        patternCharOf_of_ge pattern row hr
      have htc2 : textCharOf text column = text.getD (column - 2) "" :=
        textCharOf_of_ge text column hc
      have hP := take_reverse_at pattern row hr hrow
      have hT := take_reverse_at text column hc hcol
      rw [target_eq_spec pattern text row column (by omega) (by omega), hP, hT]
      rw [target_eq_spec pattern text (row - 1) (column - 1) (by omega) (by omega)]
      rw [show row - 1 - 1 = row - 2 from by omega, show column - 1 - 1 = column - 2 from by omega]
      rw [hpc2, htc2] at hbr
      rcases hbr with ⟨heq, hnstar⟩ | hq
      · have hpstar : pattern.getD (row - 2) "" ≠ "*" := by rw [heq]; exact hnstar
        rw [specMatch_cons_cons _ _ _ _ hpstar, heq]
        simp
      · rw [hq]
        rw [specMatch_cons_cons _ _ _ _ (by decide)]
        simp

/-- Step equation for `target`: the `*` case. -/
theorem target_eq_star (pattern text : List String) (row column : Nat)
    (hcol : column ≤ text.length + 1)
    (h0 : row ≠ 0) (h1 : column ≠ 0)
    (hstar : patternCharOf pattern row = "*") :
    target pattern text row column =
      (target pattern text (row - 1) column || target pattern text row (column - 1)) := by
  have hr : 2 ≤ row := by
    rcases Nat.lt_or_ge row 2 with h | h
    · have hrow1 : row = 1 := by omega
      rw [hrow1] at hstar
      simp [patternCharOf] at hstar
    · exact h
  have hpc2 : patternCharOf pattern row = pattern.getD (row - 2) "" :=
    patternCharOf_of_ge pattern row hr
  rw [hpc2] at hstar
  have hidx : row - 2 < pattern.length := by
    by_contra hge
    rw [List.getD_eq_default _ _ (by omega)] at hstar
    exact absurd hstar (by decide)
  have hP : (pattern.take (row - 1)).reverse =
      pattern.getD (row - 2) "" :: (pattern.take (row - 2)).reverse := by
    have := take_reverse_cons pattern (row - 2) hidx
    rw [show row - 1 = row - 2 + 1 from by omega]
    exact this
  rcases Nat.lt_or_ge column 2 with hc | hc
  · have hcol1 : column = 1 := by omega
    subst hcol1
    rw [target_eq_spec pattern text row 1 (by omega) (by omega)]
    rw [show (1 : Nat) - 1 = 0 from rfl, target_zero_right]
    rw [target_eq_spec pattern text (row - 1) 1 (by omega) (by omega)]
    rw [show (1 : Nat) - 1 = 0 from rfl]
    rw [show text.take 0 = [] from rfl, List.reverse_nil, hP, hstar]
    rw [specMatch_star_nil]
    rw [show row - 1 - 1 = row - 2 from by omega]
    simp
  · have hT := take_reverse_at text column hc hcol
    rw [target_eq_spec pattern text row column (by omega) (by omega), hP, hT, hstar]
    rw [specMatch_star_cons]
    rw [target_eq_spec pattern text (row - 1) column (by omega) (by omega)]
    rw [target_eq_spec pattern text row (column - 1) (by omega) (by omega)]
    rw [show row - 1 - 1 = row - 2 from by omega, show column - 1 - 1 = column - 2 from by omega]
    rw [hT, hP, hstar]

/-- Step equation for `target`: the mismatch case. -/
theorem target_eq_mismatch (pattern text : List String) (row column : Nat)
    (hrow : row ≤ pattern.length + 1) (hcol : column ≤ text.length + 1)
    (h0 : row ≠ 0) (h1 : column ≠ 0) (hne : ¬(row = 1 ∧ column = 1))
    (hbr : ¬((patternCharOf pattern row = textCharOf text column ∧ textCharOf text column ≠ "*")
      ∨ patternCharOf pattern row = "?"))
    (hstar : patternCharOf pattern row ≠ "*") :
    target pattern text row column = false := by
  rcases Nat.lt_or_ge row 2 with hr | hr
  · have hrow1 : row = 1 := by omega
    subst hrow1
    rcases Nat.lt_or_ge column 2 with hc | hc
    · exact absurd ⟨rfl, by omega⟩ hne
    · exact target_row_one pattern text column hc hcol
  · have hpc2 : patternCharOf pattern row = pattern.getD (row - 2) "" :=
      patternCharOf_of_ge pattern row hr
    have hP := take_reverse_at pattern row hr hrow
    rw [hpc2] at hstar
    rcases Nat.lt_or_ge column 2 with hc | hc
    · have hcol1 : column = 1 := by omega
      subst hcol1
      rw [target_eq_spec pattern text row 1 (by omega) (by omega)]
      rw [show (1 : Nat) - 1 = 0 from rfl]
      rw [show text.take 0 = [] from rfl, List.reverse_nil, hP]
      exact specMatch_cons_nil _ _ hstar
    · have htc2 : textCharOf text column = text.getD (column - 2) "" :=
        textCharOf_of_ge text column hc
      have hT := take_reverse_at text column hc hcol
      rw [target_eq_spec pattern text row column (by omega) (by omega), hP, hT]
      rw [specMatch_cons_cons _ _ _ _ hstar]
      rw [hpc2, htc2] at hbr
      push_neg at hbr
      obtain ⟨hbr1, hbr2⟩ := hbr
      have hneq : pattern.getD (row - 2) "" ≠ text.getD (column - 2) "" := by
        intro heq
        have h3 := hbr1 heq
        rw [← heq] at h3
        exact hstar h3
      set pc := pattern.getD (row - 2) "" with hpcdef
      set tc := text.getD (column - 2) "" with htcdef
      simp [hbr2, hneq]

theorem set_cache_eq_hit (pattern text : List String) (cache : Cache) (row column : Nat)
    (h : (lookupC cache (row, column)).isSome) :
    set_cache pattern text cache row column = cache := by
  rw [set_cache, if_pos h]

theorem set_cache_eq_row_zero (pattern text : List String) (cache : Cache) (column : Nat)
    (h : ¬(lookupC cache (0, column)).isSome) :
    set_cache pattern text cache 0 column = insertC cache (0, column) false := by
  rw [set_cache, if_neg h, dif_pos rfl]

theorem set_cache_eq_col_zero (pattern text : List String) (cache : Cache) (row : Nat)
    (h : ¬(lookupC cache (row, 0)).isSome) :
    set_cache pattern text cache row 0 = insertC cache (row, 0) false := by
  by_cases h0 : row = 0
  · subst h0
    exact set_cache_eq_row_zero pattern text cache 0 h
  · rw [set_cache, if_neg h, dif_neg h0, dif_pos rfl]

theorem set_cache_eq_diag (pattern text : List String) (cache : Cache) (row column : Nat)
    (h : ¬(lookupC cache (row, column)).isSome) (h0 : row ≠ 0) (h1 : column ≠ 0)
    (hbr : (patternCharOf pattern row = textCharOf text column ∧ textCharOf text column ≠ "*")
      ∨ patternCharOf pattern row = "?") :
    set_cache pattern text cache row column =
      insertC (set_cache pattern text cache (row - 1) (column - 1)) (row, column)
        ((lookupC (set_cache pattern text cache (row - 1) (column - 1))
          (row - 1, column - 1)).getD false) := by
  rw [set_cache, if_neg h, dif_neg h0, dif_neg h1, if_pos hbr]

theorem set_cache_eq_star (pattern text : List String) (cache : Cache) (row column : Nat)
    (h : ¬(lookupC cache (row, column)).isSome) (h0 : row ≠ 0) (h1 : column ≠ 0)
    (hbr : ¬((patternCharOf pattern row = textCharOf text column ∧ textCharOf text column ≠ "*")
      ∨ patternCharOf pattern row = "?"))
    (hstar : patternCharOf pattern row = "*") :
    set_cache pattern text cache row column =
      (if (lookupC (set_cache pattern text cache (row - 1) column) (row - 1, column)).getD false then
        insertC (set_cache pattern text cache (row - 1) column) (row, column) true
      else if (lookupC (set_cache pattern text (set_cache pattern text cache (row - 1) column)
          row (column - 1)) (row, column - 1)).getD false then
        insertC (set_cache pattern text (set_cache pattern text cache (row - 1) column)
          row (column - 1)) (row, column) true
      else
        insertC (set_cache pattern text (set_cache pattern text cache (row - 1) column)
          row (column - 1)) (row, column) false) := by
  rw [set_cache, if_neg h, dif_neg h0, dif_neg h1, if_neg hbr, if_pos hstar]

theorem set_cache_eq_mismatch (pattern text : List String) (cache : Cache) (row column : Nat)
    (h : ¬(lookupC cache (row, column)).isSome) (h0 : row ≠ 0) (h1 : column ≠ 0)
    (hbr : ¬((patternCharOf pattern row = textCharOf text column ∧ textCharOf text column ≠ "*")
      ∨ patternCharOf pattern row = "?"))
    (hstar : patternCharOf pattern row ≠ "*") :
    set_cache pattern text cache row column = insertC cache (row, column) false := by
  rw [set_cache, if_neg h, dif_neg h0, dif_neg h1, if_neg hbr, if_neg hstar]

/-- Inserting the correct `target` value for a fresh key preserves cache
goodness. -/
theorem GoodCache_insert (pattern text : List String) (cache : Cache) (r c : Nat) (b : Bool)
    (hgood : GoodCache pattern text cache)
    (hnone : lookupC cache (r, c) = none)
    (hval : b = target pattern text r c) :
    GoodCache pattern text (insertC cache (r, c) b) := by
  obtain ⟨hseed, hentries⟩ := hgood
  have hne : (r, c) ≠ ((1 : Nat), (1 : Nat)) := by
    intro heq
    rw [heq, hseed] at hnone
    exact Option.noConfusion hnone
  constructor
  · rw [lookupC_insert_ne cache (r, c) (1, 1) b hne]
    exact hseed
  · intro r' c' b' hb'
    by_cases hk : (r, c) = (r', c')
    · obtain ⟨hr', hc'⟩ := Prod.mk.injEq .. ▸ hk
      subst hr'
      subst hc'
      rw [lookupC_insert_self] at hb'
      cases hb'
      exact hval
    · rw [lookupC_insert_ne cache (r, c) (r', c') b hk] at hb'
      exact hentries r' c' b' hb'

/-- Packaging lemma: if `set_cache` at `(row, column)` produced a single
insert of the correct value on top of an extension of the original cache
whose keys are fresh and strictly below the current coordinate sum, then
the full invariant holds at `(row, column)`. -/
theorem set_cache_conclude (pattern text : List String) (cache newCache exts : Cache)
    (row column : Nat) (v : Bool)
    (hres : set_cache pattern text cache row column = insertC newCache (row, column) v)
    (hnew : newCache = exts ++ cache)
    (hfresh : ∀ k ∈ keysC exts, lookupC cache k = none ∧ k.1 + k.2 < row + column)
    (hnodup : (keysC exts).Nodup)
    (hgoodnew : GoodCache pattern text newCache)
    (hmiss : lookupC cache (row, column) = none)
    (hval : v = target pattern text row column) :
    ∃ ext : Cache,
      set_cache pattern text cache row column = ext ++ cache ∧
      (∀ k ∈ keysC ext, lookupC cache k = none ∧ k.1 + k.2 ≤ row + column) ∧
      (keysC ext).Nodup ∧
      GoodCache pattern text (set_cache pattern text cache row column) ∧
      lookupC (set_cache pattern text cache row column) (row, column) =
        some (target pattern text row column) := by
  have hnotin : (row, column) ∉ keysC exts := by
    intro hmem
    have h2 : row + column < row + column := (hfresh _ hmem).2
    omega
  have hnone : lookupC newCache (row, column) = none := by
    rw [hnew, lookupC_append_none]
    exact ⟨(lookupC_eq_none_iff _ _).2 hnotin, hmiss⟩
  refine ⟨((row, column), v) :: exts, ?_, ?_, ?_, ?_, ?_⟩
  · rw [hres, hnew]
    rfl
  · intro k hk
    simp only [keysC, List.map_cons, List.mem_cons] at hk
    rcases hk with hk | hk
    · subst hk
      exact ⟨hmiss, Nat.le_refl _⟩
    · exact ⟨(hfresh k hk).1, Nat.le_of_lt (hfresh k hk).2⟩
  · simp only [keysC, List.map_cons]
    exact List.nodup_cons.2 ⟨hnotin, hnodup⟩
  · rw [hres]
    exact GoodCache_insert pattern text newCache row column v hgoodnew hnone hval
  · rw [hres, lookupC_insert_self, hval]

/-- The central invariant of the memoized matcher: starting from a good
cache, `set_cache` only adds fresh entries (with coordinate sum bounded by
the current one), keeps all keys distinct, keeps every entry equal to
`target`, and guarantees an entry for the coordinate it was called with. -/
theorem set_cache_spec (pattern text : List String) :
    ∀ n row column cache, row + column ≤ n →
      row ≤ pattern.length + 1 → column ≤ text.length + 1 →
      GoodCache pattern text cache →
      ∃ ext : Cache,
        set_cache pattern text cache row column = ext ++ cache ∧
        (∀ k ∈ keysC ext, lookupC cache k = none ∧ k.1 + k.2 ≤ row + column) ∧
        (keysC ext).Nodup ∧
        GoodCache pattern text (set_cache pattern text cache row column) ∧
        lookupC (set_cache pattern text cache row column) (row, column) =
          some (target pattern text row column) := by
  intro n
  induction n using Nat.strong_induction_on with
  | _ n ih =>
    intro row column cache hn hrow hcol hgood
    by_cases hhit : (lookupC cache (row, column)).isSome
    · obtain ⟨b, hb⟩ := Option.isSome_iff_exists.1 hhit
      have hbv : b = target pattern text row column := hgood.2 row column b hb
      rw [set_cache_eq_hit pattern text cache row column hhit]
      exact ⟨[], rfl, by simp [keysC], by simp [keysC], hgood, by rw [hb, hbv]⟩
    · have hmiss : lookupC cache (row, column) = none :=
        Option.not_isSome_iff_eq_none.1 hhit
      by_cases h0 : row = 0
      · subst h0
        refine set_cache_conclude pattern text cache cache [] 0 column false
          (set_cache_eq_row_zero pattern text cache column hhit) rfl
          (by simp [keysC]) (by simp [keysC]) hgood hmiss (target_zero_left pattern text column).symm
      · by_cases h1 : column = 0
        · subst h1
          refine set_cache_conclude pattern text cache cache [] row 0 false
            (set_cache_eq_col_zero pattern text cache row hhit) rfl
            (by simp [keysC]) (by simp [keysC]) hgood hmiss (target_zero_right pattern text row).symm
        · have hne11 : ¬(row = 1 ∧ column = 1) := by
            rintro ⟨hr1, hc1⟩
            subst hr1
            subst hc1
            rw [hgood.1] at hmiss
            exact Option.noConfusion hmiss
          by_cases hbr : (patternCharOf pattern row = textCharOf text column ∧
              textCharOf text column ≠ "*") ∨ patternCharOf pattern row = "?"
          · -- diagonal (literal match or `?`) branch
            obtain ⟨ext1, heq1, hfresh1, hnodup1, hgood1, hlook1⟩ :=
              ih (row - 1 + (column - 1)) (by omega) (row - 1) (column - 1) cache
                (Nat.le_refl _) (by omega) (by omega) hgood
            have hres : set_cache pattern text cache row column =
                insertC (set_cache pattern text cache (row - 1) (column - 1)) (row, column)
                  (target pattern text (row - 1) (column - 1)) := by
              rw [set_cache_eq_diag pattern text cache row column hhit h0 h1 hbr, hlook1,
                Option.getD_some]
            refine set_cache_conclude pattern text cache _ ext1 row column _ hres heq1
              ?_ hnodup1 hgood1 hmiss
              (target_eq_diag pattern text row column hrow hcol h0 h1 hne11 hbr).symm
            intro k hk
            exact ⟨(hfresh1 k hk).1, by have := (hfresh1 k hk).2; omega⟩
          · by_cases hstar : patternCharOf pattern row = "*"
            · -- `*` branch
              obtain ⟨ext1, heq1, hfresh1, hnodup1, hgood1, hlook1⟩ :=
                ih (row - 1 + column) (by omega) (row - 1) column cache
                  (Nat.le_refl _) (by omega) hcol hgood
              have htarget := target_eq_star pattern text row column hcol h0 h1 hstar
              by_cases hL : target pattern text (row - 1) column = true
              · have hres : set_cache pattern text cache row column =
                    insertC (set_cache pattern text cache (row - 1) column) (row, column)
                      true := by
                  rw [set_cache_eq_star pattern text cache row column hhit h0 h1 hbr hstar,
                    hlook1, Option.getD_some, if_pos hL]
                have hval : (true : Bool) = target pattern text row column := by
                  rw [htarget, hL, Bool.true_or]
                refine set_cache_conclude pattern text cache _ ext1 row column _ hres heq1
                  ?_ hnodup1 hgood1 hmiss hval
                intro k hk
                exact ⟨(hfresh1 k hk).1, by have := (hfresh1 k hk).2; omega⟩
              · have hLf : target pattern text (row - 1) column = false := by
                  revert hL
                  cases target pattern text (row - 1) column <;> simp
                obtain ⟨ext2, heq2, hfresh2, hnodup2, hgood2, hlook2⟩ :=
                  ih (row + (column - 1)) (by omega) row (column - 1)
                    (set_cache pattern text cache (row - 1) column)
                    (Nat.le_refl _) hrow (by omega) hgood1
                have hext2cache : ∀ k ∈ keysC ext2, lookupC cache k = none := by
                  intro k hk
                  have h2 := (hfresh2 k hk).1
                  rw [heq1, lookupC_append_none] at h2
                  exact h2.2
                have hext2ext1 : ∀ k ∈ keysC ext2, k ∉ keysC ext1 := by
                  intro k hk
                  have h2 := (hfresh2 k hk).1
                  rw [heq1, lookupC_append_none] at h2
                  exact (lookupC_eq_none_iff _ _).1 h2.1
                have hnewkeys : ∀ k ∈ keysC (ext2 ++ ext1),
                    lookupC cache k = none ∧ k.1 + k.2 < row + column := by
                  intro k hk
                  rw [keysC_append, List.mem_append] at hk
                  rcases hk with hk | hk
                  · exact ⟨hext2cache k hk, by have := (hfresh2 k hk).2; omega⟩
                  · exact ⟨(hfresh1 k hk).1, by have := (hfresh1 k hk).2; omega⟩
                have hnodup12 : (keysC (ext2 ++ ext1)).Nodup := by
                  rw [keysC_append]
                  exact List.Nodup.append hnodup2 hnodup1 hext2ext1
                have hnew : set_cache pattern text (set_cache pattern text cache (row - 1) column)
                    row (column - 1) = (ext2 ++ ext1) ++ cache := by
                  rw [heq2, heq1, List.append_assoc]
                by_cases hR : target pattern text row (column - 1) = true
                · have hres : set_cache pattern text cache row column =
                      insertC (set_cache pattern text
                        (set_cache pattern text cache (row - 1) column) row (column - 1))
                        (row, column) true := by
                    rw [set_cache_eq_star pattern text cache row column hhit h0 h1 hbr hstar,
                      hlook1, Option.getD_some, if_neg hL, hlook2, Option.getD_some, if_pos hR]
                  have hval : (true : Bool) = target pattern text row column := by
                    rw [htarget, hLf, hR, Bool.false_or]
                  exact set_cache_conclude pattern text cache _ (ext2 ++ ext1) row column _
                    hres hnew hnewkeys hnodup12 hgood2 hmiss hval
                · have hRf : target pattern text row (column - 1) = false := by
                    revert hR
                    cases target pattern text row (column - 1) <;> simp
                  have hres : set_cache pattern text cache row column =
                      insertC (set_cache pattern text
                        (set_cache pattern text cache (row - 1) column) row (column - 1))
                        (row, column) false := by
                    rw [set_cache_eq_star pattern text cache row column hhit h0 h1 hbr hstar,
                      hlook1, Option.getD_some, if_neg hL, hlook2, Option.getD_some, if_neg hR]
                  have hval : (false : Bool) = target pattern text row column := by
                    rw [htarget, hLf, hRf, Bool.false_or]
                  exact set_cache_conclude pattern text cache _ (ext2 ++ ext1) row column _
                    hres hnew hnewkeys hnodup12 hgood2 hmiss hval
            · -- mismatch branch
              refine set_cache_conclude pattern text cache cache [] row column false
                (set_cache_eq_mismatch pattern text cache row column hhit h0 h1 hbr hstar) rfl
                (by simp [keysC]) (by simp [keysC]) hgood hmiss
                (target_eq_mismatch pattern text row column hrow hcol h0 h1 hne11 hbr hstar).symm

/-- The seed cache `{(1, 1) ↦ true}` built by `match_with_cache` is good. -/
theorem GoodCache_seed (pattern text : List String) :
    GoodCache pattern text (insertC [] (1, 1) true) := by
  constructor
  · exact lookupC_insert_self [] (1, 1) true
  · intro r c b hb
    by_cases h : ((1 : Nat), (1 : Nat)) = (r, c)
    · cases h
      rw [lookupC_insert_self] at hb
      cases hb
      exact (target_one_one pattern text).symm
    · rw [lookupC_insert_ne [] (1, 1) (r, c) true h, lookupC_nil] at hb
      exact Option.noConfusion hb

/-- The memoized matcher computes exactly the specification semantics. -/
theorem match_with_cache_eq_specMatch (pattern text : List String) :
    match_with_cache pattern text = specMatch pattern text := by
  obtain ⟨ext, heq, hfresh, hnodup, hgoodr, hlook⟩ :=
    set_cache_spec pattern text (pattern.length + 1 + (text.length + 1))
      (pattern.length + 1) (text.length + 1) (insertC [] (1, 1) true)
      (Nat.le_refl _) (Nat.le_refl _) (Nat.le_refl _) (GoodCache_seed pattern text)
  show (lookupC (set_cache pattern text (insertC [] (1, 1) true)
      (pattern.length + 1) (text.length + 1))
      (pattern.length + 1, text.length + 1)).getD false = specMatch pattern text
  rw [hlook, Option.getD_some]
  rw [target_eq_spec pattern text _ _ (by omega) (by omega)]
  rw [show pattern.length + 1 - 1 = pattern.length from by omega]
  rw [show text.length + 1 - 1 = text.length from by omega]
  rw [List.take_length, List.take_length]
  exact specMatch_reverse pattern text

/-- The memoized matcher decides the relational specification. -/
theorem match_with_cache_iff_Matches (pattern text : List String) :
    match_with_cache pattern text = true ↔ Matches pattern text := by
  rw [match_with_cache_eq_specMatch]
  exact specMatch_iff_Matches pattern text

/-- `set_cache` always leaves an entry for the coordinate it was called
with, so the final `unwrap` of `match_with_cache` cannot fail. -/
theorem set_cache_keyHit (pattern text : List String) (cache : Cache) (row column : Nat) :
    (lookupC (set_cache pattern text cache row column) (row, column)).isSome := by
  by_cases hhit : (lookupC cache (row, column)).isSome
  · rw [set_cache_eq_hit pattern text cache row column hhit]
    exact hhit
  · by_cases h0 : row = 0
    · subst h0
      rw [set_cache_eq_row_zero pattern text cache column hhit, lookupC_insert_self]
      rfl
    · by_cases h1 : column = 0
      · subst h1
        rw [set_cache_eq_col_zero pattern text cache row hhit, lookupC_insert_self]
        rfl
      · by_cases hbr : (patternCharOf pattern row = textCharOf text column ∧
            textCharOf text column ≠ "*") ∨ patternCharOf pattern row = "?"
        · rw [set_cache_eq_diag pattern text cache row column hhit h0 h1 hbr,
            lookupC_insert_self]
          rfl
        · by_cases hstar : patternCharOf pattern row = "*"
          · rw [set_cache_eq_star pattern text cache row column hhit h0 h1 hbr hstar]
            split
            · rw [lookupC_insert_self]; rfl
            · split
              · rw [lookupC_insert_self]; rfl
              · rw [lookupC_insert_self]; rfl
          · rw [set_cache_eq_mismatch pattern text cache row column hhit h0 h1 hbr hstar,
              lookupC_insert_self]
            rfl

/-!
## Panic model and fuel model

`set_cacheP` renders the same function with the two possible Rust panics
made explicit: the vector indexings `pattern[row - 2]` / `text[column - 2]`
return `none` when out of bounds, and `none` propagates.
`match_with_cacheP` likewise models the final `.unwrap()` as an `Option`.
`set_cacheF` renders the recursion with explicit fuel; that it equals
`set_cache` whenever `fuel > row + column` is exactly the statement that
the recursion terminates because every call strictly decreases
`row + column`.
-/

/-- Panic-modelling version of the Rust `pattern[row - 2]` access. -/
def patternCharP (pattern : List String) (row : Nat) : Option String :=
  if row = 1 then some "" else pattern[row - 2]?

/-- Panic-modelling version of the Rust `text[column - 2]` access. -/
def textCharP (text : List String) (column : Nat) : Option String :=
  if column = 1 then some "" else text[column - 2]?

theorem patternCharP_eq (pattern : List String) (row : Nat)
    (h0 : row ≠ 0) (hrow : row ≤ pattern.length + 1) :
    patternCharP pattern row = some (patternCharOf pattern row) := by
  unfold patternCharP patternCharOf
  by_cases hr1 : row = 1
  · simp [hr1]
  · rw [if_neg hr1, if_neg hr1]
    have hidx : row - 2 < pattern.length := by omega
    rw [List.getElem?_eq_getElem hidx, List.getD_eq_getElem pattern "" hidx]

theorem textCharP_eq (text : List String) (column : Nat)
    (h1 : column ≠ 0) (hcol : column ≤ text.length + 1) :
    textCharP text column = some (textCharOf text column) := by
  unfold textCharP textCharOf
  by_cases hc1 : column = 1
  · simp [hc1]
  · rw [if_neg hc1, if_neg hc1]
    have hidx : column - 2 < text.length := by omega
    rw [List.getElem?_eq_getElem hidx, List.getD_eq_getElem text "" hidx]

/-- `set_cache` with both possible panics modelled as `none`. -/
def set_cacheP (pattern text : List String) (cache : Cache) (row column : Nat) : Option Cache :=
  if (lookupC cache (row, column)).isSome then some cache
  else if _h0 : row = 0 then some (insertC cache (row, column) false)
  else if _h1 : column = 0 then some (insertC cache (row, column) false)
  else
    (patternCharP pattern row).bind fun patternChar =>
    (textCharP text column).bind fun textChar =>
      if (patternChar = textChar ∧ textChar ≠ "*") ∨ patternChar = "?" then
        (set_cacheP pattern text cache (row - 1) (column - 1)).bind fun cache1 =>
          some (insertC cache1 (row, column)
            ((lookupC cache1 (row - 1, column - 1)).getD false))
      else if patternChar = "*" then
        (set_cacheP pattern text cache (row - 1) column).bind fun cache1 =>
          if (lookupC cache1 (row - 1, column)).getD false then
            some (insertC cache1 (row, column) true)
          else
            (set_cacheP pattern text cache1 row (column - 1)).bind fun cache2 =>
              if (lookupC cache2 (row, column - 1)).getD false then
                some (insertC cache2 (row, column) true)
              else
                some (insertC cache2 (row, column) false)
      else
        some (insertC cache (row, column) false)
termination_by row + column
decreasing_by
  · omega
  · omega
  · omega

/-- `match_with_cache` with the final `.unwrap()` modelled as an `Option`. -/
def match_with_cacheP (pattern text : List String) : Option Bool :=
  (set_cacheP pattern text (insertC [] (1, 1) true)
    (pattern.length + 1) (text.length + 1)).bind
    fun cache1 => lookupC cache1 (pattern.length + 1, text.length + 1)

/-- Within the index bounds the matcher actually uses, the panic-modelling
version never panics and agrees with the total model. -/
theorem set_cacheP_eq (pattern text : List String) :
    ∀ n row column cache, row + column ≤ n →
      row ≤ pattern.length + 1 → column ≤ text.length + 1 →
      set_cacheP pattern text cache row column =
        some (set_cache pattern text cache row column) := by
  intro n
  induction n using Nat.strong_induction_on with
  | _ n ih =>
    intro row column cache hn hrow hcol
    by_cases hhit : (lookupC cache (row, column)).isSome
    · rw [set_cacheP, if_pos hhit, set_cache_eq_hit pattern text cache row column hhit]
    · by_cases h0 : row = 0
      · subst h0
        rw [set_cacheP, if_neg hhit, dif_pos rfl,
          set_cache_eq_row_zero pattern text cache column hhit]
      · by_cases h1 : column = 0
        · subst h1
          rw [set_cacheP, if_neg hhit, dif_neg h0, dif_pos rfl,
            set_cache_eq_col_zero pattern text cache row hhit]
        · rw [set_cacheP, if_neg hhit, dif_neg h0, dif_neg h1,
            patternCharP_eq pattern row h0 hrow, Option.some_bind,
            textCharP_eq text column h1 hcol, Option.some_bind]
          by_cases hbr : (patternCharOf pattern row = textCharOf text column ∧
              textCharOf text column ≠ "*") ∨ patternCharOf pattern row = "?"
          · rw [if_pos hbr,
              ih (row - 1 + (column - 1)) (by omega) (row - 1) (column - 1) cache
                (Nat.le_refl _) (by omega) (by omega),
              Option.some_bind,
              set_cache_eq_diag pattern text cache row column hhit h0 h1 hbr]
          · by_cases hstar : patternCharOf pattern row = "*"
            · rw [if_neg hbr, if_pos hstar,
                ih (row - 1 + column) (by omega) (row - 1) column cache
                  (Nat.le_refl _) (by omega) hcol,
                Option.some_bind,
                set_cache_eq_star pattern text cache row column hhit h0 h1 hbr hstar]
              by_cases hL : (lookupC (set_cache pattern text cache (row - 1) column)
                  (row - 1, column)).getD false = true
              · rw [if_pos hL, if_pos hL]
              · rw [if_neg hL, if_neg hL,
                  ih (row + (column - 1)) (by omega) row (column - 1)
                    (set_cache pattern text cache (row - 1) column)
                    (Nat.le_refl _) hrow (by omega),
                  Option.some_bind]
                by_cases hR : (lookupC (set_cache pattern text
                    (set_cache pattern text cache (row - 1) column) row (column - 1))
                    (row, column - 1)).getD false = true
                · rw [if_pos hR, if_pos hR]
                · rw [if_neg hR, if_neg hR]
            · rw [if_neg hbr, if_neg hstar,
                set_cache_eq_mismatch pattern text cache row column hhit h0 h1 hbr hstar]

/-- The final lookup-and-unwrap of `match_with_cache` always succeeds. -/
theorem match_with_cacheP_eq (pattern text : List String) :
    match_with_cacheP pattern text = some (match_with_cache pattern text) := by
  unfold match_with_cacheP
  rw [set_cacheP_eq pattern text (pattern.length + 1 + (text.length + 1))
    (pattern.length + 1) (text.length + 1) (insertC [] (1, 1) true)
    (Nat.le_refl _) (Nat.le_refl _) (Nat.le_refl _), Option.some_bind]
  have hs := set_cache_keyHit pattern text (insertC [] (1, 1) true)
    (pattern.length + 1) (text.length + 1)
  obtain ⟨b, hb⟩ := Option.isSome_iff_exists.1 hs
  show _ = some ((lookupC (set_cache pattern text (insertC [] (1, 1) true)
      (pattern.length + 1) (text.length + 1))
      (pattern.length + 1, text.length + 1)).getD false)
  rw [hb, Option.getD_some]

/-- `set_cache` with explicit fuel (structural recursion, `none` when the
fuel runs out). -/
def set_cacheF (pattern text : List String) : Nat → Cache → Nat → Nat → Option Cache
  | 0, _, _, _ => none
  | fuel + 1, cache, row, column =>
    if (lookupC cache (row, column)).isSome then some cache
    else if row = 0 then some (insertC cache (row, column) false)
    else if column = 0 then some (insertC cache (row, column) false)
    else if (patternCharOf pattern row = textCharOf text column ∧ textCharOf text column ≠ "*")
        ∨ patternCharOf pattern row = "?" then
      (set_cacheF pattern text fuel cache (row - 1) (column - 1)).bind fun cache1 =>
        some (insertC cache1 (row, column) ((lookupC cache1 (row - 1, column - 1)).getD false))
    else if patternCharOf pattern row = "*" then
      (set_cacheF pattern text fuel cache (row - 1) column).bind fun cache1 =>
        if (lookupC cache1 (row - 1, column)).getD false then
          some (insertC cache1 (row, column) true)
        else
          (set_cacheF pattern text fuel cache1 row (column - 1)).bind fun cache2 =>
            if (lookupC cache2 (row, column - 1)).getD false then
              some (insertC cache2 (row, column) true)
            else
              some (insertC cache2 (row, column) false)
    else
      some (insertC cache (row, column) false)

/-- Termination of `set_cache` along the measure `row + column`: any fuel
strictly above the measure suffices, i.e. every recursive call strictly
decreases `row + column`. -/
theorem set_cacheF_eq (pattern text : List String) :
    ∀ fuel row column cache, row + column < fuel →
      set_cacheF pattern text fuel cache row column =
        some (set_cache pattern text cache row column) := by
  intro fuel
  induction fuel with
  | zero =>
    intro row column cache h
    omega
  | succ fuel ihf =>
    intro row column cache h
    by_cases hhit : (lookupC cache (row, column)).isSome
    · rw [set_cacheF, if_pos hhit, set_cache_eq_hit pattern text cache row column hhit]
    · by_cases h0 : row = 0
      · subst h0
        rw [set_cacheF, if_neg hhit, if_pos rfl,
          set_cache_eq_row_zero pattern text cache column hhit]
      · by_cases h1 : column = 0
        · subst h1
          rw [set_cacheF, if_neg hhit, if_neg h0, if_pos rfl,
            set_cache_eq_col_zero pattern text cache row hhit]
        · rw [set_cacheF, if_neg hhit, if_neg h0, if_neg h1]
          by_cases hbr : (patternCharOf pattern row = textCharOf text column ∧
              textCharOf text column ≠ "*") ∨ patternCharOf pattern row = "?"
          · rw [if_pos hbr, ihf (row - 1) (column - 1) cache (by omega), Option.some_bind,
              set_cache_eq_diag pattern text cache row column hhit h0 h1 hbr]
          · by_cases hstar : patternCharOf pattern row = "*"
            · rw [if_neg hbr, if_pos hstar, ihf (row - 1) column cache (by omega),
                Option.some_bind,
                set_cache_eq_star pattern text cache row column hhit h0 h1 hbr hstar]
              by_cases hL : (lookupC (set_cache pattern text cache (row - 1) column)
                  (row - 1, column)).getD false = true
              · rw [if_pos hL, if_pos hL]
              · rw [if_neg hL, if_neg hL,
                  ihf row (column - 1) (set_cache pattern text cache (row - 1) column)
                    (by omega),
                  Option.some_bind]
                by_cases hR : (lookupC (set_cache pattern text
                    (set_cache pattern text cache (row - 1) column) row (column - 1))
                    (row, column - 1)).getD false = true
                · rw [if_pos hR, if_pos hR]
                · rw [if_neg hR, if_neg hR]
            · rw [if_neg hbr, if_neg hstar,
                set_cache_eq_mismatch pattern text cache row column hhit h0 h1 hbr hstar]

/-!
## The (dead-code) preprocessing pass

`remove_duplicate_stars`, `remove_matching_start_and_end` and
`preprocessing` embed the functions of those names from `src/lib.rs`;
their `while` loops become the recursions `rdsLoop`, `rmseFront` and
`rmseBack` (`Vec::remove(i)` is `List.eraseIdx i`).  Note that the call to
`preprocessing` inside `is_wildcard_match` is commented out in the source,
so this pass is not on the live path.
-/

/-- The `while` loop of `remove_duplicate_stars`: starting from `i = 1`,
remove `pattern[i]` when both it and its predecessor are `*`, else advance. -/
def rdsLoop (pattern : List String) (i : Nat) : List String :=
  if h : i < pattern.length then
    if pattern.getD i "" = "*" ∧ pattern.getD (i - 1) "" = "*" then
      rdsLoop (pattern.eraseIdx i) i
    else
      rdsLoop pattern (i + 1)
  else pattern
termination_by pattern.length - i
decreasing_by
  · have := List.length_eraseIdx_of_lt h
    omega
  · omega

/-- Rust `remove_duplicate_stars`. -/
def remove_duplicate_stars (pattern : List String) : List String :=
  rdsLoop pattern 1

/-- The first `while` loop of `remove_matching_start_and_end`: it removes
position `i` from both sequences and then (faithfully to the source)
increments `i`. -/
def rmseFront (pattern text : List String) (i : Nat) : List String × List String :=
  if h : (i < pattern.length ∧ i < text.length) ∧
      ((pattern.getD i "" = text.getD i "" ∧ text.getD i "" ≠ "*")
        ∨ pattern.getD i "" = "?") then
    rmseFront (pattern.eraseIdx i) (text.eraseIdx i) (i + 1)
  else (pattern, text)
termination_by pattern.length - i
decreasing_by
  have := List.length_eraseIdx_of_lt h.1.1
  omega

/-- The second `while` loop of `remove_matching_start_and_end`, walking
backwards from the last indices. -/
def rmseBack (pattern text : List String) (i j : Nat) : List String × List String :=
  if h : (0 < i ∧ 0 < j) ∧
      ((pattern.getD i "" = text.getD j "" ∧ text.getD j "" ≠ "*")
        ∨ pattern.getD i "" = "?") then
    rmseBack (pattern.eraseIdx i) (text.eraseIdx j) (i - 1) (j - 1)
  else (pattern, text)
termination_by i
decreasing_by omega

/-- Rust `remove_matching_start_and_end`. -/
def remove_matching_start_and_end (pattern text : List String) :
    List String × List String :=
  let front := rmseFront pattern text 0
  if front.1.length = 0 ∨ front.2.length = 0 then front
  else rmseBack front.1 front.2 (front.1.length - 1) (front.2.length - 1)

/-- Rust `preprocessing`: star de-duplication followed by affix stripping. -/
def preprocessing (pattern text : List String) : List String × List String :=
  remove_matching_start_and_end (remove_duplicate_stars pattern) text

/-- Two adjacent `*` behave as one. -/
theorem specMatch_star_star (ps : List String) :
    ∀ ts : List String, specMatch ("*" :: "*" :: ps) ts = specMatch ("*" :: ps) ts := by
  intro ts
  induction ts with
  | nil => exact specMatch_star_nil ("*" :: ps)
  | cons t ts ih =>
    rw [specMatch_star_cons ("*" :: ps) t ts, ih, specMatch_star_cons ps t ts]
    rw [Bool.or_assoc, Bool.or_self]

/-- A run of `k + 1` stars behaves as a single star. -/
theorem specMatch_replicate_star (p2 : List String) :
    ∀ (k : Nat) (t : List String),
      specMatch (List.replicate (k + 1) "*" ++ p2) t = specMatch ("*" :: p2) t := by
  intro k
  induction k with
  | zero => intro t; rfl
  | succ k ih =>
    intro t
    rw [List.replicate_succ, List.replicate_succ, List.cons_append, List.cons_append,
      specMatch_star_star, ← List.cons_append, ← List.replicate_succ]
    exact ih t

/-- Replacing the tail of a pattern by a pointwise-equivalent tail does not
change matching. -/
theorem specMatch_append_congr (p1 A B : List String)
    (h : ∀ u : List String, specMatch A u = specMatch B u) :
    ∀ t : List String, specMatch (p1 ++ A) t = specMatch (p1 ++ B) t := by
  induction p1 with
  | nil => exact h
  | cons a as ih =>
    intro t
    by_cases ha : a = "*"
    · subst ha
      rw [List.cons_append, List.cons_append, specMatch_star_head, specMatch_star_head]
      simp only [ih]
    · cases t with
      | nil =>
        rw [List.cons_append, List.cons_append, specMatch_cons_nil _ _ ha,
          specMatch_cons_nil _ _ ha]
      | cons x xs =>
        rw [List.cons_append, List.cons_append, specMatch_cons_cons _ _ _ _ ha,
          specMatch_cons_cons _ _ _ _ ha, ih xs]

/-!
## The claims
-/

/-- C1: `is_wildcard_match` returns true iff the pattern's grapheme
sequence matches the text's grapheme sequence completely under the
wildcard semantics (literal graphemes match only themselves, `?` matches
exactly one grapheme, `*` matches zero or more, and both sequences must be
consumed entirely); the grapheme segmentation, performed by the external
`unicode_segmentation` crate, is the abstract parameter `segment`. -/
theorem claim1_match_decides_spec :
    ∀ (segment : String → List String) (text pattern : String),
      is_wildcard_match segment text pattern = true ↔
        Matches (segment pattern) (segment text) := by
  intro segment text pattern
  unfold is_wildcard_match
  rw [match_with_cache_eq_specMatch]
  exact specMatch_iff_Matches (segment pattern) (segment text)

/-- C2: the four boundary edge cases of the matcher: empty pattern vs
empty text is true; empty pattern vs non-empty text is false; a pattern of
one or more `*` vs empty text is true; pattern `?` vs empty text is false
(`match_with_cache` takes the pattern sequence first). -/
theorem claim2_edge_cases :
    match_with_cache [] [] = true ∧
    (∀ t : List String, t ≠ [] → match_with_cache [] t = false) ∧
    (∀ k : Nat, 1 ≤ k → match_with_cache (List.replicate k "*") [] = true) ∧
    match_with_cache ["?"] [] = false := by
  refine ⟨?_, ?_, ?_, ?_⟩
  · rw [match_with_cache_eq_specMatch]
    rfl
  · intro t ht
    rw [match_with_cache_eq_specMatch]
    cases t with
    | nil => exact absurd rfl ht
    | cons x xs => rfl
  · intro k hk
    rw [match_with_cache_eq_specMatch]
    obtain ⟨k', rfl⟩ : ∃ k', k = k' + 1 := ⟨k - 1, by omega⟩
    have h := specMatch_replicate_star [] k' []
    rw [List.append_nil] at h
    rw [h]
    decide
  · rw [match_with_cache_eq_specMatch]
    rfl

/-- Witness for C2 at concrete inputs. -/
theorem claim2_edge_cases_witness :
    match_with_cache [] ["a"] = false ∧ match_with_cache (List.replicate 3 "*") [] = true :=
  ⟨claim2_edge_cases.2.1 ["a"] (by decide), claim2_edge_cases.2.2.1 3 (by decide)⟩

/-- C3: grapheme atomicity — any text that segments into exactly one
grapheme cluster (of any byte length) is matched by the pattern `?`. -/
theorem claim3_grapheme_atomicity :
    ∀ (segment : String → List String) (text g : String),
      segment text = [g] → segment "?" = ["?"] →
      is_wildcard_match segment text "?" = true := by
  intro segment text g h1 h2
  unfold is_wildcard_match
  rw [h1, h2, match_with_cache_eq_specMatch]
  rw [specMatch_cons_cons _ _ _ _ (by decide)]
  simp [specMatch]

/-- Witness for C3: a segmentation sending the text to one (multi-byte,
multi-codepoint) grapheme cluster. -/
theorem claim3_grapheme_atomicity_witness :
    is_wildcard_match (fun s => if s = "?" then ["?"] else ["é"]) "é" "?" = true :=
  claim3_grapheme_atomicity (fun s => if s = "?" then ["?"] else ["é"])
    "é" "é" (by simp) (by simp)

/-- C4: star-run idempotence — replacing a run of `k ≥ 1` consecutive `*`
graphemes anywhere in the pattern by a single `*` does not change the
matcher's answer on any text. -/
theorem claim4_star_run_collapse :
    ∀ (p1 p2 t : List String) (k : Nat), 1 ≤ k →
      match_with_cache (p1 ++ List.replicate k "*" ++ p2) t =
        match_with_cache (p1 ++ ["*"] ++ p2) t := by
  intro p1 p2 t k hk
  rw [match_with_cache_eq_specMatch, match_with_cache_eq_specMatch]
  obtain ⟨k', rfl⟩ : ∃ k', k = k' + 1 := ⟨k - 1, by omega⟩
  rw [List.append_assoc p1 (List.replicate (k' + 1) "*") p2, List.append_assoc p1 ["*"] p2]
  exact specMatch_append_congr p1 (List.replicate (k' + 1) "*" ++ p2) (["*"] ++ p2)
    (fun u => specMatch_replicate_star p2 k' u) t

/-- Witness for C4 at concrete inputs. -/
theorem claim4_star_run_collapse_witness :
    match_with_cache (["a"] ++ List.replicate 3 "*" ++ ["b"]) ["a", "x", "b"] =
      match_with_cache (["a"] ++ ["*"] ++ ["b"]) ["a", "x", "b"] :=
  claim4_star_run_collapse ["a"] ["b"] ["a", "x", "b"] 3 (by decide)

/-- C5: self-match — every string matches itself as a pattern, whatever
graphemes (including `*` and `?`) its segmentation contains. -/
theorem claim5_self_match :
    ∀ (segment : String → List String) (s : String),
      is_wildcard_match segment s s = true := by
  intro segment s
  unfold is_wildcard_match
  rw [match_with_cache_eq_specMatch]
  exact (specMatch_iff_Matches (segment s) (segment s)).2 (Matches_self (segment s))

/-- C6: totality and termination — the recursion of `set_cache` is
well-founded along `row + column`: any fuel strictly above `row + column`
makes the fuel-limited rendering finish with exactly `set_cache`'s answer,
and `is_wildcard_match` always returns a boolean. -/
theorem claim6_termination :
    (∀ (pattern text : List String) (fuel row column : Nat) (cache : Cache),
      row + column < fuel →
      set_cacheF pattern text fuel cache row column =
        some (set_cache pattern text cache row column)) ∧
    (∀ (segment : String → List String) (text pattern : String),
      is_wildcard_match segment text pattern = true ∨
        is_wildcard_match segment text pattern = false) := by
  constructor
  · intro pattern text fuel row column cache h
    exact set_cacheF_eq pattern text fuel row column cache h
  · intro segment text pattern
    cases is_wildcard_match segment text pattern
    · right; rfl
    · left; rfl

/-- Witness for C6 at concrete inputs. -/
theorem claim6_termination_witness :
    set_cacheF ["a"] [] 4 [((1, 1), true)] 2 1 =
      some (set_cache ["a"] [] [((1, 1), true)] 2 1) :=
  claim6_termination.1 ["a"] [] 4 2 1 [((1, 1), true)] (by decide)

/-- C7: the memo is write-once — within a matching call (a good, seeded
cache), `set_cache` keeps all keys distinct (so every insert is for a key
not currently present) and never changes the value of an existing entry. -/
theorem claim7_memo_write_once :
    ∀ (pattern text : List String) (cache : Cache) (row column : Nat),
      row ≤ pattern.length + 1 → column ≤ text.length + 1 →
      GoodCache pattern text cache →
      ((keysC cache).Nodup → (keysC (set_cache pattern text cache row column)).Nodup) ∧
      (∀ k b, lookupC cache k = some b →
        lookupC (set_cache pattern text cache row column) k = some b) := by
  intro pattern text cache row column hrow hcol hgood
  obtain ⟨ext, heq, hfresh, hnodup, _, _⟩ :=
    set_cache_spec pattern text (row + column) row column cache
      (Nat.le_refl _) hrow hcol hgood
  constructor
  · intro hcache
    rw [heq, keysC_append]
    refine List.Nodup.append hnodup hcache ?_
    intro k hk1 hk2
    have hnone := (hfresh k hk1).1
    rw [lookupC_eq_none_iff] at hnone
    exact hnone hk2
  · intro k b hb
    rw [heq]
    have hnot : k ∉ keysC ext := by
      intro hk
      rw [(hfresh k hk).1] at hb
      exact Option.noConfusion hb
    rw [lookupC_append_right ext cache k ((lookupC_eq_none_iff ext k).2 hnot)]
    exact hb

/-- Witness for C7 on the seed cache. -/
theorem claim7_memo_write_once_witness :
    (keysC (set_cache [] [] [((1, 1), true)] 1 1)).Nodup ∧
      lookupC (set_cache [] [] [((1, 1), true)] 1 1) (1, 1) = some true := by
  have hgood : GoodCache [] [] [((1, 1), true)] := by
    constructor
    · rfl
    · intro r c b hb
      by_cases h : ((1 : Nat), (1 : Nat)) = (r, c)
      · cases h
        simp [lookupC] at hb
        rw [target_one_one, ← hb]
      · simp only [lookupC, if_neg h] at hb
        exact Option.noConfusion hb
  have h := claim7_memo_write_once [] [] [((1, 1), true)] 1 1 (by decide) (by decide) hgood
  exact ⟨h.1 (by decide), h.2 (1, 1) true rfl⟩

/-- C8 (code bug): the preprocessing pass is not semantics-preserving.
On pattern `[c, *, ?, a]` and text `[c, b, a]` the matcher answers true,
but after `preprocessing` (which mis-strips because the front loop
advances `i` after removing at `i`) it answers false. -/
theorem claim8_preprocessing_changes_answer :
    match_with_cache ["c", "*", "?", "a"] ["c", "b", "a"] = true ∧
    preprocessing ["c", "*", "?", "a"] ["c", "b", "a"] = (["*", "a"], ["b"]) ∧
    match_with_cache (preprocessing ["c", "*", "?", "a"] ["c", "b", "a"]).1
      (preprocessing ["c", "*", "?", "a"] ["c", "b", "a"]).2 = false := by
  have hpre : preprocessing ["c", "*", "?", "a"] ["c", "b", "a"] = (["*", "a"], ["b"]) := by
    simp [preprocessing, remove_duplicate_stars, rdsLoop, remove_matching_start_and_end,
      rmseFront, rmseBack]
  refine ⟨?_, hpre, ?_⟩
  · rw [match_with_cache_eq_specMatch]
    decide
  · rw [hpre, match_with_cache_eq_specMatch]
    decide

/-- C9 (code bug): the front strip loop does not remove the longest
qualifying prefix.  On pattern `[a, b]` and text `[a, b]` every position of
the common prefix qualifies (equal literals, no `*`), so the claimed
behaviour strips everything, leaving `([], [])`; the code instead leaves
`([b], [b])` because it advances `i` after removing at `i` and so skips
every other position. -/
theorem claim9_affix_strip_skips_positions :
    remove_matching_start_and_end ["a", "b"] ["a", "b"] = (["b"], ["b"]) ∧
    remove_matching_start_and_end ["a", "b"] ["a", "b"] ≠ (([] : List String), ([] : List String)) := by
  have h : remove_matching_start_and_end ["a", "b"] ["a", "b"] = (["b"], ["b"]) := by
    simp [remove_matching_start_and_end, rmseFront, rmseBack]
  exact ⟨h, by rw [h]; decide⟩

/-- C10: panic-freedom — under the index bounds the matcher maintains,
the panic-modelling `set_cacheP` never returns `none` (the vector
accesses are in bounds); `set_cache` always leaves an entry for its own
coordinate; and the final lookup-and-unwrap of `match_with_cache` always
succeeds. -/
theorem claim10_no_panic :
    (∀ (pattern text : List String) (cache : Cache) (row column : Nat),
      row ≤ pattern.length + 1 → column ≤ text.length + 1 →
      set_cacheP pattern text cache row column =
        some (set_cache pattern text cache row column)) ∧
    (∀ (pattern text : List String) (cache : Cache) (row column : Nat),
      (lookupC (set_cache pattern text cache row column) (row, column)).isSome) ∧
    (∀ pattern text : List String,
      match_with_cacheP pattern text = some (match_with_cache pattern text)) := by
  refine ⟨?_, ?_, ?_⟩
  · intro pattern text cache row column hrow hcol
    exact set_cacheP_eq pattern text (row + column) row column cache (Nat.le_refl _) hrow hcol
  · intro pattern text cache row column
    exact set_cache_keyHit pattern text cache row column
  · intro pattern text
    exact match_with_cacheP_eq pattern text

/-- Witness for C10 at concrete inputs. -/
theorem claim10_no_panic_witness :
    set_cacheP ["a"] [] [((1, 1), true)] 2 1 =
      some (set_cache ["a"] [] [((1, 1), true)] 2 1) :=
  claim10_no_panic.1 ["a"] [] [((1, 1), true)] 2 1 (by decide) (by decide)
